import Mathlib

/-!
Shallow embedding of the frame-resource pipeline of
`src/Solution/Week4-6-ShapeComplete.cpp` (ShapesApp).

The embedding models, faithfully to the source:
  * the global ring size `gNumFrameResources = 3` (line 27);
  * `RenderItem` (lines 31-58): world matrix, dirty counter, constant-buffer
    slot index, and the indexed-draw parameters;
  * the frame scheduler of `ShapesApp::Update` (lines 210-222): ring advance
    and the fence wait, and of `ShapesApp::Draw` (lines 288-294): fence
    signal into the just-used slot;
  * `ShapesApp::UpdateObjectCBs` (lines 366-386): the dirty-tracked
    per-object constant upload;
  * the descriptor-heap layout arithmetic of `BuildDescriptorHeaps`
    (lines 416-434) and `BuildConstantBufferViews` (lines 436-485);
  * `ShapesApp::DrawRenderItems` (lines 1205-1229);
  * `ShapesApp::BuildRenderItems` (lines 813-1201).

Matrix entries are abstracted by a type parameter `α` (the C++ stores
`float` entries; no arithmetic on entries is ever performed by the core —
only `XMMatrixTranspose`, which is entry-type agnostic).
-/

namespace ShapesApp

/-- `const int gNumFrameResources = 3;` (line 27). -/
def gNumFrameResources : Nat := 3

/-- A 4x4 matrix (`XMFLOAT4X4`), entries abstracted. -/
abbrev M4 (α : Type) : Type := Fin 4 → Fin 4 → α

/-- `XMMatrixTranspose` as used at line 378. -/
def transpose {α : Type} (m : M4 α) : M4 α := fun i j => m j i

/-- `RenderItem` (lines 31-58).  `NumFramesDirty` is a C++ `int`, modelled
by `Int`; it is default-initialized to `gNumFrameResources` (line 44). -/
structure RenderItem (α : Type) where
  World : M4 α
  NumFramesDirty : Int := (gNumFrameResources : Int)
  ObjCBIndex : Nat
  IndexCount : Nat
  StartIndexLocation : Nat
  BaseVertexLocation : Int

/-- One ring slot (`FrameResource`): its object constant buffer (one
matrix entry per render item) and its fence watermark (`Fence`, 0 until
first submitted). -/
structure FrameResource (α : Type) where
  ObjectCB : List (M4 α)
  Fence : Nat

instance {α : Type} : Inhabited (FrameResource α) := ⟨⟨[], 0⟩⟩

/-- Scheduler-visible state of the app: the ring of frame resources, the
circular index `mCurrFrameResourceIndex`, the CPU-side fence counter
`mCurrentFence`, and the most recently observed GPU completed-fence value
(`mFence->GetCompletedValue()`). -/
structure SchedState (α : Type) where
  frameResources : List (FrameResource α)
  currFrameResourceIndex : Nat
  currentFence : Nat
  gpuCompleted : Nat

/-- The slot the scheduler currently points at (`mCurrFrameResource`). -/
def currFrameResource {α : Type} (s : SchedState α) : FrameResource α :=
  s.frameResources.getD s.currFrameResourceIndex default

/-- `ShapesApp::Update`, lines 210-222: advance the circular index, then
wait on the new slot's fence if it is nonzero and not yet completed.
`observed` is the GPU completed value read at the check
(`mFence->GetCompletedValue()`); `afterWait` is the completed value at the
moment the wait returns (the wait returns only once the counter has
reached the watermark, hence `max afterWait f`).  Returns the new state
and whether the wait path was taken. -/
def acquireNext {α : Type} (s : SchedState α) (observed afterWait : Nat) :
    SchedState α × Bool :=
  let idx := (s.currFrameResourceIndex + 1) % gNumFrameResources
  let f := (s.frameResources.getD idx default).Fence
  if f ≠ 0 ∧ observed < f then
    ({ s with currFrameResourceIndex := idx, gpuCompleted := max afterWait f }, true)
  else
    ({ s with currFrameResourceIndex := idx, gpuCompleted := observed }, false)

/-- End of `ShapesApp::Draw`, lines 288-294:
`mCurrFrameResource->Fence = ++mCurrentFence;` followed by
`mCommandQueue->Signal(mFence.Get(), mCurrentFence);`.
Returns the new state and the signaled fence value. -/
def endFrame {α : Type} (s : SchedState α) : SchedState α × Nat :=
  let newFence := s.currentFence + 1
  let idx := s.currFrameResourceIndex
  let fr := s.frameResources.getD idx default
  ({ s with currentFence := newFence,
            frameResources := s.frameResources.set idx { fr with Fence := newFence } },
   newFence)

/-- One whole frame as seen by the scheduler: `Update`'s ring advance and
wait, then `Draw`'s signal. -/
def frameStep {α : Type} (s : SchedState α) (observed afterWait : Nat) :
    SchedState α × Nat :=
  endFrame (acquireNext s observed afterWait).1

/-- The fence values signaled over a sequence of frames, each frame fed an
arbitrary pair of observed GPU completed values. -/
def runSignals {α : Type} : SchedState α → List (Nat × Nat) → List Nat
  | _, [] => []
  | s, p :: rest =>
    (frameStep s p.1 p.2).2 :: runSignals (frameStep s p.1 p.2).1 rest

/-- `UploadBuffer::CopyData` as used at line 380: store a matrix at a
given element index of an object constant buffer. -/
def copyData {α : Type} (buf : List (M4 α)) (i : Nat) (m : M4 α) : List (M4 α) :=
  buf.set i m

/-- `ShapesApp::UpdateObjectCBs` (lines 366-386): iterate all render items
in order; for each with `NumFramesDirty > 0`, store the transposed world
matrix at element `ObjCBIndex` of the current slot's object constant
buffer and decrement `NumFramesDirty`.  Returns the updated item list and
the updated buffer. -/
def updateObjectCBs {α : Type} :
    List (RenderItem α) → List (M4 α) → List (RenderItem α) × List (M4 α)
  | [], buf => ([], buf)
  | e :: rest, buf =>
    if 0 < e.NumFramesDirty then
      let buf1 := copyData buf e.ObjCBIndex (transpose e.World)
      let r := updateObjectCBs rest buf1
      ({ e with NumFramesDirty := e.NumFramesDirty - 1 } :: r.1, r.2)
    else
      let r := updateObjectCBs rest buf
      (e :: r.1, r.2)

/-- Per-item effect of one `UpdateObjectCBs` pass on the item itself
(lines 373-384): decrement `NumFramesDirty` when positive, else leave the
item untouched. -/
def tickItem {α : Type} (e : RenderItem α) : RenderItem α :=
  if 0 < e.NumFramesDirty then { e with NumFramesDirty := e.NumFramesDirty - 1 } else e

/-- One per-object update pass applied to ring slot `k`: the slot's object
constant buffer (`mCurrFrameResource->ObjectCB`, line 368) is run through
`UpdateObjectCBs` and stored back; the item list is updated in place. -/
def updateCycle {α : Type} (items : List (RenderItem α))
    (bufs : List (List (M4 α))) (k : Nat) :
    List (RenderItem α) × List (List (M4 α)) :=
  ((updateObjectCBs items (bufs.getD k [])).1,
   bufs.set k (updateObjectCBs items (bufs.getD k [])).2)

/-- `t` frames of the update loop: each frame advances the circular index
(`Update`, line 211) and runs `UpdateObjectCBs` on the newly current
slot's object constant buffer (line 224).  Returns the final index, item
list, and ring of object constant buffers. -/
def runUpdateFrames {α : Type} :
    Nat → Nat → List (RenderItem α) → List (List (M4 α)) →
      Nat × List (RenderItem α) × List (List (M4 α))
  | 0, i, items, bufs => (i, items, bufs)
  | t + 1, i, items, bufs =>
    runUpdateFrames t ((i + 1) % gNumFrameResources)
      (updateCycle items bufs ((i + 1) % gNumFrameResources)).1
      (updateCycle items bufs ((i + 1) % gNumFrameResources)).2

/-! ### Concrete example data for evaluations -/

/-- A concrete, non-symmetric world matrix. -/
def wA : M4 Int := fun i j => ((i : Nat) : Int) + 4 * ((j : Nat) : Int)

/-- A second concrete world matrix. -/
def wB : M4 Int := fun i j => ((i : Nat) : Int) * 7 + ((j : Nat) : Int)

/-- The zero matrix, standing for uninitialized upload-buffer contents. -/
def zeroM4 : M4 Int := fun _ _ => 0

/-- A concrete render item at object slot 0. -/
def itemA : RenderItem Int :=
  { World := wA, NumFramesDirty := 3, ObjCBIndex := 0, IndexCount := 36,
    StartIndexLocation := 0, BaseVertexLocation := 0 }

/-- A concrete render item at object slot 1. -/
def itemB : RenderItem Int :=
  { World := wB, NumFramesDirty := 3, ObjCBIndex := 1, IndexCount := 36,
    StartIndexLocation := 0, BaseVertexLocation := 0 }

/-- Three ring slots' object constant buffers, two entries each. -/
def exampleBufs : List (List (M4 Int)) :=
  [[zeroM4, zeroM4], [zeroM4, zeroM4], [zeroM4, zeroM4]]

/-! ### Descriptor heap layout
`BuildDescriptorHeaps` (lines 416-434), `BuildConstantBufferViews`
(lines 436-485), and the bindings in `Draw` (line 266) /
`DrawRenderItems` (line 1220). -/

/-- `UINT numDescriptors = (objCount + 1) * gNumFrameResources;` (line 422). -/
def numDescriptors (objCount : Nat) : Nat := (objCount + 1) * gNumFrameResources

/-- `mPassCbvOffset = objCount * gNumFrameResources;` (line 425). -/
def passCbvOffset (objCount : Nat) : Nat := objCount * gNumFrameResources

/-- Object CBV heap index: `int heapIndex = frameIndex * objCount + i;`
(line 454); the same arithmetic is used for `cbvIndex` at line 1220. -/
def objectCbvHeapIndex (objCount frameIndex objSlot : Nat) : Nat :=
  frameIndex * objCount + objSlot

/-- Pass CBV heap index: `int heapIndex = mPassCbvOffset + frameIndex;`
(line 475); the same arithmetic gives `passCbvIndex` at line 266. -/
def passCbvHeapIndex (objCount frameIndex : Nat) : Nat :=
  passCbvOffset objCount + frameIndex

/-! ### Draw dispatch (`DrawRenderItems`, lines 1205-1229) -/

/-- The observable effect of one loop iteration of `DrawRenderItems`: the
object CBV descriptor bound for the item and the arguments of its single
`DrawIndexedInstanced` call (lines 1220-1227). -/
structure DrawCall where
  cbvIndex : Nat
  indexCount : Nat
  startIndexLocation : Nat
  baseVertexLocation : Int

/-- `ShapesApp::DrawRenderItems` (lines 1205-1229): for each render item,
in list order, bind the descriptor at
`mCurrFrameResourceIndex * objCount + ObjCBIndex` and issue exactly one
indexed-instanced draw with the item's index-count, start-index, and
base-vertex. -/
def drawRenderItems {α : Type} (currFrameResourceIndex objCount : Nat) :
    List (RenderItem α) → List DrawCall
  | [] => []
  | ri :: rest =>
    { cbvIndex := currFrameResourceIndex * objCount + ri.ObjCBIndex,
      indexCount := ri.IndexCount,
      startIndexLocation := ri.StartIndexLocation,
      baseVertexLocation := ri.BaseVertexLocation }
      :: drawRenderItems currFrameResourceIndex objCount rest

/-! ### Scene construction (`BuildRenderItems`, lines 813-1201) -/

/-- A geometry sub-range (`SubmeshGeometry` from the geometry provider). -/
structure SubmeshGeometry where
  IndexCount : Nat
  StartIndexLocation : Nat
  BaseVertexLocation : Int

/-- The named sub-ranges of the concatenated shape geometry that
`BuildRenderItems` reads through `Geo->DrawArgs[...]` (produced by the
external geometry provider, `BuildShapeGeometry`). -/
structure ShapeGeometry where
  box : SubmeshGeometry
  grid : SubmeshGeometry
  sphere : SubmeshGeometry
  cylinder : SubmeshGeometry
  cone : SubmeshGeometry
  wedge : SubmeshGeometry
  pyramid : SubmeshGeometry
  diamond : SubmeshGeometry
  triPrism : SubmeshGeometry

/-- Creation of one render item in `BuildRenderItems`: the world matrix is
stored, `ObjCBIndex` assigned, and the draw parameters copied from the
geometry sub-range; `NumFramesDirty` keeps its initializer
`gNumFrameResources` (line 44). -/
def mkRenderItem {α : Type} (world : M4 α) (objCBIndex : Nat)
    (sub : SubmeshGeometry) : RenderItem α :=
  { World := world, NumFramesDirty := (gNumFrameResources : Int),
    ObjCBIndex := objCBIndex, IndexCount := sub.IndexCount,
    StartIndexLocation := sub.StartIndexLocation,
    BaseVertexLocation := sub.BaseVertexLocation }

/-- `ShapesApp::BuildRenderItems` (lines 813-1201): the 32 render items in
registration order, with their `ObjCBIndex` assignments and geometry
sub-ranges as in the source; `worlds k` stands for the world matrix
computed for the k-th item (scale/rotation/translation products of the
external math library). -/
def buildRenderItems {α : Type} (geo : ShapeGeometry) (worlds : Nat → M4 α) :
    List (RenderItem α) :=
  [mkRenderItem (worlds 0) 0 geo.box,
   mkRenderItem (worlds 1) 1 geo.box,
   mkRenderItem (worlds 2) 2 geo.box,
   mkRenderItem (worlds 3) 3 geo.box,
   mkRenderItem (worlds 4) 4 geo.box,
   mkRenderItem (worlds 5) 5 geo.box,
   mkRenderItem (worlds 6) 6 geo.box,
   mkRenderItem (worlds 7) 7 geo.box,
   mkRenderItem (worlds 8) 8 geo.box,
   mkRenderItem (worlds 9) 9 geo.box,
   mkRenderItem (worlds 10) 10 geo.grid,
   mkRenderItem (worlds 11) 11 geo.wedge,
   mkRenderItem (worlds 12) 12 geo.pyramid,
   mkRenderItem (worlds 13) 13 geo.diamond,
   mkRenderItem (worlds 14) 14 geo.diamond,
   mkRenderItem (worlds 15) 15 geo.diamond,
   mkRenderItem (worlds 16) 16 geo.diamond,
   mkRenderItem (worlds 17) 17 geo.triPrism,
   mkRenderItem (worlds 18) 18 geo.triPrism,
   mkRenderItem (worlds 19) 19 geo.cylinder,
   mkRenderItem (worlds 20) 20 geo.cylinder,
   mkRenderItem (worlds 21) 21 geo.cylinder,
   mkRenderItem (worlds 22) 22 geo.cylinder,
   mkRenderItem (worlds 23) 23 geo.cylinder,
   mkRenderItem (worlds 24) 24 geo.cylinder,
   mkRenderItem (worlds 25) 25 geo.cone,
   mkRenderItem (worlds 26) 26 geo.cone,
   mkRenderItem (worlds 27) 27 geo.cone,
   mkRenderItem (worlds 28) 28 geo.cone,
   mkRenderItem (worlds 29) 29 geo.cone,
   mkRenderItem (worlds 30) 30 geo.cone,
   mkRenderItem (worlds 31) 31 geo.sphere]

/-- Lines 1199-1200: every render item is pushed into the opaque list, in
the same order. -/
def opaqueRitems {α : Type} (geo : ShapeGeometry) (worlds : Nat → M4 α) :
    List (RenderItem α) :=
  buildRenderItems geo worlds

/-- A concrete geometry table for evaluations. -/
def exampleGeo : ShapeGeometry :=
  { box := ⟨36, 0, 0⟩, grid := ⟨7200, 36, 8⟩, sphere := ⟨2280, 7236, 1269⟩,
    cylinder := ⟨2400, 9516, 1671⟩, cone := ⟨1200, 11916, 2113⟩,
    wedge := ⟨36, 13116, 2234⟩, pyramid := ⟨18, 13152, 2242⟩,
    diamond := ⟨48, 13170, 2247⟩, triPrism := ⟨24, 13218, 2255⟩ }

/-- Concrete world matrices for evaluations. -/
def exampleWorlds : Nat → M4 Int := fun k i j =>
  (k : Int) + ((i : Nat) : Int) * 5 + ((j : Nat) : Int)

end ShapesApp

namespace ShapesApp

/-- **C5** Descriptor layout formula: the heap has exactly
`(objectCount + 1) * ringSize` entries, the offset functions are
`objectOffset(ringIndex, objectSlot) = ringIndex * objectCount + objectSlot`
and `passOffset(ringIndex) = objectCount * N + ringIndex`; for
`objectCount = 32`, `N = 3` the heap has 99 descriptors, the pass offsets
are 96, 97, 98, and `objectOffset(2, 0) = 64`. -/
theorem descriptor_layout_formula :
    (∀ objCount, numDescriptors objCount = (objCount + 1) * gNumFrameResources)
    ∧ (∀ objCount frameIndex objSlot,
        objectCbvHeapIndex objCount frameIndex objSlot = frameIndex * objCount + objSlot)
    ∧ (∀ objCount frameIndex,
        passCbvHeapIndex objCount frameIndex = objCount * gNumFrameResources + frameIndex)
    ∧ numDescriptors 32 = 99
    ∧ passCbvHeapIndex 32 0 = 96
    ∧ passCbvHeapIndex 32 1 = 97
    ∧ passCbvHeapIndex 32 2 = 98
    ∧ objectCbvHeapIndex 32 2 0 = 64 := by
  refine ⟨fun _ => rfl, fun _ _ _ => rfl, fun _ _ => rfl, ?_, ?_, ?_, ?_, ?_⟩ <;> rfl

/-- **C6** Descriptor offset injectivity: for `ringIndex < N` and
`objectSlot < objectCount` the object offsets are pairwise distinct, and
every object offset is distinct from every pass offset. -/
theorem descriptor_offsets_injective_and_disjoint :
    (∀ objCount f₁ s₁ f₂ s₂, s₁ < objCount → s₂ < objCount →
      objectCbvHeapIndex objCount f₁ s₁ = objectCbvHeapIndex objCount f₂ s₂ →
      f₁ = f₂ ∧ s₁ = s₂)
    ∧ (∀ objCount f s g, f < gNumFrameResources → s < objCount →
        objectCbvHeapIndex objCount f s ≠ passCbvHeapIndex objCount g) := by
  constructor
  · intro objCount f₁ s₁ f₂ s₂ hs₁ hs₂ h
    unfold objectCbvHeapIndex at h
    have hf : f₁ = f₂ := by
      rcases Nat.lt_trichotomy f₁ f₂ with hlt | heq | hgt
      · exfalso
        have h1 : (f₁ + 1) * objCount ≤ f₂ * objCount :=
          Nat.mul_le_mul_right _ hlt
        have h2 : (f₁ + 1) * objCount = f₁ * objCount + objCount := by ring
        omega
      · exact heq
      · exfalso
        have h1 : (f₂ + 1) * objCount ≤ f₁ * objCount :=
          Nat.mul_le_mul_right _ hgt
        have h2 : (f₂ + 1) * objCount = f₂ * objCount + objCount := by ring
        omega
    subst hf
    exact ⟨rfl, by omega⟩
  · intro objCount f s g hf hs
    unfold objectCbvHeapIndex passCbvHeapIndex passCbvOffset gNumFrameResources
    unfold gNumFrameResources at hf
    have h1 : (f + 1) * objCount ≤ 3 * objCount := Nat.mul_le_mul_right _ (by omega)
    have h2 : (f + 1) * objCount = f * objCount + objCount := by ring
    have h3 : 3 * objCount = objCount * 3 := by ring
    omega

/-! ### Scheduler lemmas -/

theorem acquireNext_fst_frameResources {α : Type} (s : SchedState α)
    (observed afterWait : Nat) :
    (acquireNext s observed afterWait).1.frameResources = s.frameResources := by
  simp only [acquireNext]
  split <;> rfl

theorem acquireNext_fst_index {α : Type} (s : SchedState α)
    (observed afterWait : Nat) :
    (acquireNext s observed afterWait).1.currFrameResourceIndex
      = (s.currFrameResourceIndex + 1) % gNumFrameResources := by
  simp only [acquireNext]
  split <;> rfl

theorem acquireNext_fst_currentFence {α : Type} (s : SchedState α)
    (observed afterWait : Nat) :
    (acquireNext s observed afterWait).1.currentFence = s.currentFence := by
  simp only [acquireNext]
  split <;> rfl

theorem frameStep_snd {α : Type} (s : SchedState α) (observed afterWait : Nat) :
    (frameStep s observed afterWait).2 = s.currentFence + 1 := by
  unfold frameStep endFrame
  simp [acquireNext_fst_currentFence]

theorem frameStep_fst_currentFence {α : Type} (s : SchedState α)
    (observed afterWait : Nat) :
    (frameStep s observed afterWait).1.currentFence = s.currentFence + 1 := by
  unfold frameStep endFrame
  simp [acquireNext_fst_currentFence]

theorem mem_runSignals_gt {α : Type} (inputs : List (Nat × Nat)) :
    ∀ (s : SchedState α) (v : Nat), v ∈ runSignals s inputs → s.currentFence < v := by
  induction inputs with
  | nil => intro s v hv; simp [runSignals] at hv
  | cons p rest ih =>
    intro s v hv
    simp only [runSignals, List.mem_cons] at hv
    rcases hv with h | h
    · rw [h, frameStep_snd]; omega
    · have := ih _ _ h
      rw [frameStep_fst_currentFence] at this
      omega

/-- **C1** No premature reuse: whenever `acquireNext` hands a ring slot to
the CPU for writing (any state, any observed GPU completed-fence values),
the slot's fence watermark is 0 or the GPU completed counter has reached
the watermark. -/
theorem no_premature_reuse {α : Type} (s : SchedState α)
    (observed afterWait : Nat) :
    (currFrameResource (acquireNext s observed afterWait).1).Fence = 0
    ∨ (currFrameResource (acquireNext s observed afterWait).1).Fence
        ≤ (acquireNext s observed afterWait).1.gpuCompleted := by
  unfold currFrameResource
  simp only [acquireNext]
  split
  case isTrue h =>
    right
    exact le_max_right _ _
  case isFalse h =>
    push_neg at h
    by_cases h0 :
      (s.frameResources.getD ((s.currFrameResourceIndex + 1) % gNumFrameResources)
        default).Fence = 0
    · left; exact h0
    · right; exact h h0

/-- **C2** `acquireNext` contract: the active frame-resource index
advances exactly to `(current + 1) mod N`, the slot at that index becomes
the current slot, and the wait path is taken exactly when that slot's
fence watermark is nonzero and the observed GPU completed counter is still
below it. -/
theorem acquireNext_contract {α : Type} (s : SchedState α)
    (observed afterWait : Nat) :
    (acquireNext s observed afterWait).1.currFrameResourceIndex
      = (s.currFrameResourceIndex + 1) % gNumFrameResources
    ∧ currFrameResource (acquireNext s observed afterWait).1
      = s.frameResources.getD ((s.currFrameResourceIndex + 1) % gNumFrameResources) default
    ∧ ((acquireNext s observed afterWait).2 = true ↔
        ((s.frameResources.getD ((s.currFrameResourceIndex + 1) % gNumFrameResources)
            default).Fence ≠ 0
          ∧ observed <
            (s.frameResources.getD ((s.currFrameResourceIndex + 1) % gNumFrameResources)
              default).Fence)) := by
  refine ⟨acquireNext_fst_index s observed afterWait, ?_, ?_⟩
  · unfold currFrameResource
    rw [acquireNext_fst_frameResources, acquireNext_fst_index]
  · simp only [acquireNext]
    split
    case isTrue h => simpa using h
    case isFalse h => simpa using h

/-- Witness for `acquireNext_contract` at a concrete state. -/
theorem acquireNext_contract_witness :
    (acquireNext (α := Unit)
        ⟨[⟨[], 5⟩, ⟨[], 6⟩, ⟨[], 7⟩], 0, 7, 4⟩ 4 6).1.currFrameResourceIndex = 1
    ∧ ((acquireNext (α := Unit)
        ⟨[⟨[], 5⟩, ⟨[], 6⟩, ⟨[], 7⟩], 0, 7, 4⟩ 4 6).2 = true ↔
        (((([⟨[], 5⟩, ⟨[], 6⟩, ⟨[], 7⟩] :
            List (FrameResource Unit)).getD ((0 + 1) % gNumFrameResources)
            default).Fence ≠ 0)
          ∧ 4 < ((([⟨[], 5⟩, ⟨[], 6⟩, ⟨[], 7⟩] :
            List (FrameResource Unit)).getD ((0 + 1) % gNumFrameResources)
            default).Fence))) := by
  have h := acquireNext_contract (α := Unit)
    ⟨[⟨[], 5⟩, ⟨[], 6⟩, ⟨[], 7⟩], 0, 7, 4⟩ 4 6
  exact ⟨h.1, h.2.2⟩

/-- **C8** Fence monotonicity: over any sequence of frames the signaled
fence values are strictly increasing, and `endFrame` stores the newly
signaled value into the just-used ring slot's fence watermark. -/
theorem fence_monotone {α : Type} (s : SchedState α) (inputs : List (Nat × Nat)) :
    List.Chain' (· < ·) (runSignals s inputs)
    ∧ (s.currFrameResourceIndex < s.frameResources.length →
        ((endFrame s).1.frameResources.getD s.currFrameResourceIndex default).Fence
          = (endFrame s).2) := by
  constructor
  · induction inputs generalizing s with
    | nil => simp [runSignals]
    | cons p rest ih =>
      rw [runSignals, List.chain'_cons']
      refine ⟨?_, ih _⟩
      intro b hb
      have hmem : b ∈ runSignals (frameStep s p.1 p.2).1 rest :=
        List.mem_of_mem_head? hb
      have := mem_runSignals_gt rest _ b hmem
      rw [frameStep_fst_currentFence] at this
      rw [frameStep_snd]
      omega
  · intro hlt
    unfold endFrame
    simp only
    rw [List.getD_eq_getElem _ _ (by simpa using hlt)]
    rw [List.getElem_set_self]

/-- Witness for `fence_monotone` at a concrete state and input trace. -/
theorem fence_monotone_witness :
    List.Chain' (· < ·)
      (runSignals (α := Unit) ⟨[⟨[], 0⟩, ⟨[], 0⟩, ⟨[], 0⟩], 0, 0, 0⟩
        [(0, 0), (0, 1), (1, 2), (2, 3)])
    ∧ ((0 : Nat) < ([⟨[], 0⟩, ⟨[], 0⟩, ⟨[], 0⟩] : List (FrameResource Unit)).length
        ∧ ((endFrame (α := Unit) ⟨[⟨[], 0⟩, ⟨[], 0⟩, ⟨[], 0⟩], 0, 0, 0⟩).1.frameResources.getD
              0 default).Fence
            = (endFrame (α := Unit) ⟨[⟨[], 0⟩, ⟨[], 0⟩, ⟨[], 0⟩], 0, 0, 0⟩).2) :=
  ⟨(fence_monotone _ _).1,
   by decide,
   (fence_monotone (α := Unit) ⟨[⟨[], 0⟩, ⟨[], 0⟩, ⟨[], 0⟩], 0, 0, 0⟩ []).2 (by decide)⟩

/-! ### Update-protocol lemmas -/

theorem getD_set_self {α : Type} (l : List α) {i : Nat} (a d : α)
    (h : i < l.length) : (l.set i a).getD i d = a := by
  rw [List.getD_eq_getElem _ _ (by simpa using h), List.getElem_set_self]

theorem getD_set_ne {α : Type} (l : List α) {i j : Nat} (a d : α)
    (h : i ≠ j) : (l.set i a).getD j d = l.getD j d := by
  rw [List.getD_eq_getD_get?, List.getD_eq_getD_get?, List.get?_set_ne a l h]

theorem updateObjectCBs_fst {α : Type} (items : List (RenderItem α)) :
    ∀ buf, (updateObjectCBs items buf).1 = items.map tickItem := by
  induction items with
  | nil => intro buf; rfl
  | cons e rest ih =>
    intro buf
    rw [updateObjectCBs]
    by_cases h : 0 < e.NumFramesDirty
    · simp only [if_pos h, List.map_cons, tickItem, ih]
    · simp only [if_neg h, List.map_cons, tickItem, ih]

theorem updateObjectCBs_snd_length {α : Type} (items : List (RenderItem α)) :
    ∀ buf : List (M4 α), (updateObjectCBs items buf).2.length = buf.length := by
  induction items with
  | nil => intro buf; rfl
  | cons e rest ih =>
    intro buf
    rw [updateObjectCBs]
    by_cases h : 0 < e.NumFramesDirty
    · simp only [if_pos h, ih, copyData, List.length_set]
    · simp only [if_neg h, ih]

theorem updateObjectCBs_snd_preserve {α : Type} (items : List (RenderItem α)) :
    ∀ (buf : List (M4 α)) (n : Nat), (∀ e ∈ items, e.ObjCBIndex ≠ n) →
      ∀ d, (updateObjectCBs items buf).2.getD n d = buf.getD n d := by
  induction items with
  | nil => intro buf n _ d; rfl
  | cons e rest ih =>
    intro buf n hne d
    rw [updateObjectCBs]
    by_cases h : 0 < e.NumFramesDirty
    · simp only [if_pos h]
      rw [ih _ n (fun x hx => hne x (List.mem_cons_of_mem _ hx)) d]
      exact getD_set_ne buf _ d (hne e (List.mem_cons_self _ _))
    · simp only [if_neg h]
      exact ih _ n (fun x hx => hne x (List.mem_cons_of_mem _ hx)) d

theorem updateObjectCBs_snd_write {α : Type} (items : List (RenderItem α)) :
    ∀ (buf : List (M4 α)) (e : RenderItem α), e ∈ items →
      List.Pairwise (fun a b => a.ObjCBIndex ≠ b.ObjCBIndex) items →
      0 < e.NumFramesDirty → e.ObjCBIndex < buf.length →
      ∀ d, (updateObjectCBs items buf).2.getD e.ObjCBIndex d = transpose e.World := by
  induction items with
  | nil => intro _ _ he; exact absurd he (List.not_mem_nil _)
  | cons x rest ih =>
    intro buf e he hpw hd hlt d
    rw [List.pairwise_cons] at hpw
    rcases List.mem_cons.mp he with rfl | hmem
    · rw [updateObjectCBs]
      simp only [if_pos hd]
      rw [updateObjectCBs_snd_preserve rest _ e.ObjCBIndex
        (fun y hy => (hpw.1 y hy).symm) d]
      exact getD_set_self buf _ d hlt
    · have hxe : x.ObjCBIndex ≠ e.ObjCBIndex := hpw.1 e hmem
      rw [updateObjectCBs]
      by_cases h : 0 < x.NumFramesDirty
      · simp only [if_pos h]
        exact ih _ e hmem hpw.2 hd (by simpa [copyData] using hlt) d
      · simp only [if_neg h]
        exact ih _ e hmem hpw.2 hd hlt d

theorem updateObjectCBs_snd_untouched {α : Type} (items : List (RenderItem α)) :
    ∀ (buf : List (M4 α)) (e : RenderItem α), e ∈ items →
      List.Pairwise (fun a b => a.ObjCBIndex ≠ b.ObjCBIndex) items →
      e.NumFramesDirty ≤ 0 →
      ∀ d, (updateObjectCBs items buf).2.getD e.ObjCBIndex d = buf.getD e.ObjCBIndex d := by
  induction items with
  | nil => intro _ _ he; exact absurd he (List.not_mem_nil _)
  | cons x rest ih =>
    intro buf e he hpw hd d
    rw [List.pairwise_cons] at hpw
    rcases List.mem_cons.mp he with rfl | hmem
    · rw [updateObjectCBs]
      simp only [if_neg (by omega : ¬ 0 < e.NumFramesDirty)]
      exact updateObjectCBs_snd_preserve rest _ e.ObjCBIndex
        (fun y hy => (hpw.1 y hy).symm) d
    · have hxe : x.ObjCBIndex ≠ e.ObjCBIndex := hpw.1 e hmem
      rw [updateObjectCBs]
      by_cases h : 0 < x.NumFramesDirty
      · simp only [if_pos h]
        rw [ih _ e hmem hpw.2 hd d]
        exact getD_set_ne buf _ d hxe
      · simp only [if_neg h]
        exact ih _ e hmem hpw.2 hd d

theorem tickItem_nonneg {α : Type} (e : RenderItem α)
    (h : 0 ≤ e.NumFramesDirty) : 0 ≤ (tickItem e).NumFramesDirty := by
  unfold tickItem
  by_cases hc : 0 < e.NumFramesDirty
  · rw [if_pos hc]
    show (0 : Int) ≤ e.NumFramesDirty - 1
    omega
  · rw [if_neg hc]
    exact h

theorem tickItem_World {α : Type} (e : RenderItem α) :
    (tickItem e).World = e.World := by
  unfold tickItem; split <;> rfl

theorem tickItem_ObjCBIndex {α : Type} (e : RenderItem α) :
    (tickItem e).ObjCBIndex = e.ObjCBIndex := by
  unfold tickItem; split <;> rfl

theorem map_tickItem_iterate_nonneg {α : Type} (k : Nat) :
    ∀ items : List (RenderItem α), (∀ e ∈ items, 0 ≤ e.NumFramesDirty) →
      ∀ e ∈ (List.map tickItem)^[k] items, 0 ≤ e.NumFramesDirty := by
  induction k with
  | zero => intro items h; simpa using h
  | succ k ih =>
    intro items h
    rw [Function.iterate_succ_apply]
    apply ih
    intro e he
    rcases List.mem_map.mp he with ⟨x, hx, rfl⟩
    exact tickItem_nonneg x (h x hx)

/-- **C4** `updateObjects` contract: one pass visits every render item in
order (the item list is mapped by the per-item step); each item with
positive dirty-count gets the transpose of its world matrix written at its
`ObjCBIndex` and its dirty-count decremented by exactly 1; an item with
dirty-count ≤ 0 is untouched (its buffer entry is not written); and under
any number of passes no dirty-count drops below 0. -/
theorem updateObjectCBs_contract {α : Type} (items : List (RenderItem α))
    (buf : List (M4 α)) :
    ((updateObjectCBs items buf).1 = items.map (fun e =>
      if 0 < e.NumFramesDirty then { e with NumFramesDirty := e.NumFramesDirty - 1 }
      else e))
    ∧ (∀ e ∈ items,
        List.Pairwise (fun a b => a.ObjCBIndex ≠ b.ObjCBIndex) items →
        0 < e.NumFramesDirty → e.ObjCBIndex < buf.length →
        ∀ d, (updateObjectCBs items buf).2.getD e.ObjCBIndex d = transpose e.World)
    ∧ (∀ e ∈ items,
        List.Pairwise (fun a b => a.ObjCBIndex ≠ b.ObjCBIndex) items →
        e.NumFramesDirty ≤ 0 →
        ∀ d, (updateObjectCBs items buf).2.getD e.ObjCBIndex d
          = buf.getD e.ObjCBIndex d)
    ∧ (∀ k, (∀ e ∈ items, 0 ≤ e.NumFramesDirty) →
        ∀ e ∈ (List.map tickItem)^[k] items, 0 ≤ e.NumFramesDirty) := by
  refine ⟨?_, ?_, ?_, ?_⟩
  · rw [updateObjectCBs_fst items buf]; rfl
  · intro e he hpw hd hlt d
    exact updateObjectCBs_snd_write items buf e he hpw hd hlt d
  · intro e he hpw hd d
    exact updateObjectCBs_snd_untouched items buf e he hpw hd d
  · intro k h
    exact map_tickItem_iterate_nonneg k items h

/-- Witness for `updateObjectCBs_contract` on a concrete two-item scene. -/
theorem updateObjectCBs_contract_witness :
    itemA ∈ [itemA, itemB]
    ∧ (0 : Int) < itemA.NumFramesDirty
    ∧ itemA.ObjCBIndex < ([zeroM4, zeroM4] : List (M4 Int)).length
    ∧ ∀ d, (updateObjectCBs [itemA, itemB] [zeroM4, zeroM4]).2.getD
        itemA.ObjCBIndex d = transpose itemA.World :=
  ⟨List.mem_cons_self _ _, by decide, by decide,
   fun d => (updateObjectCBs_contract [itemA, itemB] [zeroM4, zeroM4]).2.1 itemA
     (List.mem_cons_self _ _) (by decide) (by decide) (by decide) d⟩

theorem tickItem_pos {α : Type} (e : RenderItem α) (h : 0 < e.NumFramesDirty) :
    (tickItem e).NumFramesDirty = e.NumFramesDirty - 1 := by
  unfold tickItem
  rw [if_pos h]

theorem tickItem_nonpos {α : Type} (e : RenderItem α)
    (h : ¬ 0 < e.NumFramesDirty) : tickItem e = e := by
  unfold tickItem
  rw [if_neg h]

theorem runUpdateFrames_snd_fst {α : Type} (t : Nat) :
    ∀ (i : Nat) (items : List (RenderItem α)) (bufs : List (List (M4 α))),
      (runUpdateFrames t i items bufs).2.1 = (List.map tickItem)^[t] items := by
  induction t with
  | zero => intro i items bufs; rfl
  | succ t ih =>
    intro i items bufs
    rw [runUpdateFrames, Function.iterate_succ_apply]
    simp only [updateCycle, updateObjectCBs_fst]
    exact ih _ _ _

theorem tickItem_iterate_mem {α : Type} (t : Nat) :
    ∀ (items : List (RenderItem α)) (e : RenderItem α), e ∈ items →
      tickItem^[t] e ∈ (List.map tickItem)^[t] items := by
  induction t with
  | zero => intro items e he; simpa using he
  | succ t ih =>
    intro items e he
    rw [Function.iterate_succ_apply, Function.iterate_succ_apply]
    exact ih _ _ (List.mem_map_of_mem _ he)

theorem tickItem_iterate_World {α : Type} (t : Nat) (e : RenderItem α) :
    (tickItem^[t] e).World = e.World := by
  induction t generalizing e with
  | zero => rfl
  | succ t ih =>
    rw [Function.iterate_succ_apply, ih (tickItem e), tickItem_World]

theorem tickItem_iterate_ObjCBIndex {α : Type} (t : Nat) (e : RenderItem α) :
    (tickItem^[t] e).ObjCBIndex = e.ObjCBIndex := by
  induction t generalizing e with
  | zero => rfl
  | succ t ih =>
    rw [Function.iterate_succ_apply, ih (tickItem e), tickItem_ObjCBIndex]

theorem tickItem_iterate_dirty {α : Type} (t : Nat) (e : RenderItem α)
    (h : 0 ≤ e.NumFramesDirty) :
    (tickItem^[t] e).NumFramesDirty = max (e.NumFramesDirty - t) 0 := by
  induction t generalizing e with
  | zero => simp; omega
  | succ t ih =>
    rw [Function.iterate_succ_apply, ih (tickItem e) (tickItem_nonneg e h)]
    by_cases hd : 0 < e.NumFramesDirty
    · rw [tickItem_pos e hd]
      push_cast
      omega
    · rw [tickItem_nonpos e hd]
      push_cast
      omega

theorem exists_ring_offset (i j : Nat) (hj : j < gNumFrameResources) :
    ∃ k, 1 ≤ k ∧ k ≤ gNumFrameResources ∧ (i + k) % gNumFrameResources = j := by
  simp only [gNumFrameResources] at *
  by_cases hc : i % 3 < j
  · exact ⟨j - i % 3, by omega, by omega, by omega⟩
  · exact ⟨j + 3 - i % 3, by omega, by omega, by omega⟩

theorem runUpdateFrames_keep {α : Type} (t : Nat) :
    ∀ (i : Nat) (items : List (RenderItem α)) (bufs : List (List (M4 α)))
      (e : RenderItem α) (j : Nat),
      bufs.length = gNumFrameResources →
      (∀ b ∈ bufs, e.ObjCBIndex < b.length) →
      List.Pairwise (fun a b => a.ObjCBIndex ≠ b.ObjCBIndex) items →
      e ∈ items →
      (∀ d, (bufs.getD j []).getD e.ObjCBIndex d = transpose e.World) →
      ∀ d, ((runUpdateFrames t i items bufs).2.2.getD j []).getD e.ObjCBIndex d
        = transpose e.World := by
  induction t with
  | zero => intro i items bufs e j _ _ _ _ hj d; exact hj d
  | succ t ih =>
    intro i items bufs e j hb hlen hpw he hj d
    rw [runUpdateFrames]
    have hi1lt : (i + 1) % gNumFrameResources < bufs.length := by
      rw [hb]
      exact Nat.mod_lt _ (by simp [gNumFrameResources])
    have hmemD : bufs.getD ((i + 1) % gNumFrameResources) [] ∈ bufs := by
      rw [List.getD_eq_getElem _ _ hi1lt]
      exact List.getElem_mem _
    have h1 : (updateCycle items bufs ((i + 1) % gNumFrameResources)).2.length
        = gNumFrameResources := by
      simp only [updateCycle, List.length_set, hb]
    have h2 : ∀ b ∈ (updateCycle items bufs ((i + 1) % gNumFrameResources)).2,
        (tickItem e).ObjCBIndex < b.length := by
      intro b hbm
      rw [tickItem_ObjCBIndex]
      simp only [updateCycle] at hbm
      rcases List.mem_or_eq_of_mem_set hbm with hmem | rfl
      · exact hlen b hmem
      · rw [updateObjectCBs_snd_length]
        exact hlen _ hmemD
    have h3 : List.Pairwise (fun a b => a.ObjCBIndex ≠ b.ObjCBIndex)
        (updateCycle items bufs ((i + 1) % gNumFrameResources)).1 := by
      simp only [updateCycle, updateObjectCBs_fst]
      exact List.pairwise_map.mpr (hpw.imp (fun hab => by
        rw [tickItem_ObjCBIndex, tickItem_ObjCBIndex]; exact hab))
    have h4 : tickItem e ∈ (updateCycle items bufs ((i + 1) % gNumFrameResources)).1 := by
      simp only [updateCycle, updateObjectCBs_fst]
      exact List.mem_map_of_mem _ he
    have h5 : ∀ d, ((updateCycle items bufs ((i + 1) % gNumFrameResources)).2.getD j
        []).getD (tickItem e).ObjCBIndex d = transpose (tickItem e).World := by
      intro d
      rw [tickItem_ObjCBIndex, tickItem_World]
      simp only [updateCycle]
      by_cases hji : j = (i + 1) % gNumFrameResources
      · subst hji
        rw [getD_set_self _ _ _ hi1lt]
        by_cases hdp : 0 < e.NumFramesDirty
        · exact updateObjectCBs_snd_write items _ e he hpw hdp (hlen _ hmemD) d
        · rw [updateObjectCBs_snd_untouched items _ e he hpw (by omega) d]
          exact hj d
      · rw [getD_set_ne _ _ _ (fun hcontra => hji hcontra.symm)]
        exact hj d
    have H := ih ((i + 1) % gNumFrameResources) _ _ (tickItem e) j h1 h2 h3 h4 h5 d
    rwa [tickItem_ObjCBIndex, tickItem_World] at H

theorem runUpdateFrames_write {α : Type} (t : Nat) :
    ∀ (i : Nat) (items : List (RenderItem α)) (bufs : List (List (M4 α)))
      (e : RenderItem α) (k : Nat),
      bufs.length = gNumFrameResources →
      (∀ b ∈ bufs, e.ObjCBIndex < b.length) →
      List.Pairwise (fun a b => a.ObjCBIndex ≠ b.ObjCBIndex) items →
      e ∈ items →
      1 ≤ k → k ≤ t → (k : Int) ≤ e.NumFramesDirty →
      ∀ d, ((runUpdateFrames t i items bufs).2.2.getD
          ((i + k) % gNumFrameResources) []).getD e.ObjCBIndex d
        = transpose e.World := by
  induction t with
  | zero => intro i items bufs e k _ _ _ _ hk1 hk0 _ d; omega
  | succ t ih =>
    intro i items bufs e k hb hlen hpw he hk1 hkt hkd d
    rw [runUpdateFrames]
    have hi1lt : (i + 1) % gNumFrameResources < bufs.length := by
      rw [hb]
      exact Nat.mod_lt _ (by simp [gNumFrameResources])
    have hmemD : bufs.getD ((i + 1) % gNumFrameResources) [] ∈ bufs := by
      rw [List.getD_eq_getElem _ _ hi1lt]
      exact List.getElem_mem _
    have h1 : (updateCycle items bufs ((i + 1) % gNumFrameResources)).2.length
        = gNumFrameResources := by
      simp only [updateCycle, List.length_set, hb]
    have h2 : ∀ b ∈ (updateCycle items bufs ((i + 1) % gNumFrameResources)).2,
        (tickItem e).ObjCBIndex < b.length := by
      intro b hbm
      rw [tickItem_ObjCBIndex]
      simp only [updateCycle] at hbm
      rcases List.mem_or_eq_of_mem_set hbm with hmem | rfl
      · exact hlen b hmem
      · rw [updateObjectCBs_snd_length]
        exact hlen _ hmemD
    have h3 : List.Pairwise (fun a b => a.ObjCBIndex ≠ b.ObjCBIndex)
        (updateCycle items bufs ((i + 1) % gNumFrameResources)).1 := by
      simp only [updateCycle, updateObjectCBs_fst]
      exact List.pairwise_map.mpr (hpw.imp (fun hab => by
        rw [tickItem_ObjCBIndex, tickItem_ObjCBIndex]; exact hab))
    have h4 : tickItem e ∈ (updateCycle items bufs ((i + 1) % gNumFrameResources)).1 := by
      simp only [updateCycle, updateObjectCBs_fst]
      exact List.mem_map_of_mem _ he
    have hdp : 0 < e.NumFramesDirty := by
      have hcast : (1 : Int) ≤ (k : Int) := by exact_mod_cast hk1
      omega
    by_cases hk : k = 1
    · subst hk
      have h5 : ∀ d, ((updateCycle items bufs ((i + 1) % gNumFrameResources)).2.getD
          ((i + 1) % gNumFrameResources) []).getD (tickItem e).ObjCBIndex d
            = transpose (tickItem e).World := by
        intro d
        rw [tickItem_ObjCBIndex, tickItem_World]
        simp only [updateCycle]
        rw [getD_set_self _ _ _ hi1lt]
        exact updateObjectCBs_snd_write items _ e he hpw hdp (hlen _ hmemD) d
      have H := runUpdateFrames_keep t ((i + 1) % gNumFrameResources) _ _ (tickItem e)
        ((i + 1) % gNumFrameResources) h1 h2 h3 h4 h5 d
      rwa [tickItem_ObjCBIndex, tickItem_World] at H
    · have hk2 : 2 ≤ k := by omega
      have hdt : ((k - 1 : Nat) : Int) ≤ (tickItem e).NumFramesDirty := by
        rw [tickItem_pos e hdp]
        have hcast : ((k - 1 : Nat) : Int) = (k : Int) - 1 := by omega
        omega
      have H := ih ((i + 1) % gNumFrameResources) _ _ (tickItem e) (k - 1)
        h1 h2 h3 h4 (by omega) (by omega) hdt d
      have hidx : ((i + 1) % gNumFrameResources + (k - 1)) % gNumFrameResources
          = (i + k) % gNumFrameResources := by
        simp only [gNumFrameResources]
        omega
      rw [hidx, tickItem_ObjCBIndex, tickItem_World] at H
      exact H

/-- **C3** For a render item whose transform is not changed, after exactly
N (= 3) consecutive per-object update cycles, one per ring slot in
round-robin order, its dirty-count is 0 and all N ring slots' object
constant entries at its slot index hold the transposed transform; and, for
the run started at scene build (dirty-count N), whenever the item's
dirty-count has reached 0, all N slots hold that same transposed
transform. -/
theorem objectCB_convergence {α : Type} (i : Nat) (items : List (RenderItem α))
    (bufs : List (List (M4 α))) (e : RenderItem α)
    (hb : bufs.length = gNumFrameResources)
    (hlen : ∀ b ∈ bufs, e.ObjCBIndex < b.length)
    (hpw : List.Pairwise (fun a b => a.ObjCBIndex ≠ b.ObjCBIndex) items)
    (he : e ∈ items)
    (hd : e.NumFramesDirty = (gNumFrameResources : Int)) :
    (tickItem^[gNumFrameResources] e
        ∈ (runUpdateFrames gNumFrameResources i items bufs).2.1
      ∧ (tickItem^[gNumFrameResources] e).NumFramesDirty = 0
      ∧ ∀ j < gNumFrameResources, ∀ d,
          ((runUpdateFrames gNumFrameResources i items bufs).2.2.getD j
            []).getD e.ObjCBIndex d = transpose e.World)
    ∧ ∀ t : Nat, (tickItem^[t] e).NumFramesDirty = 0 →
        ∀ j < gNumFrameResources, ∀ d,
          ((runUpdateFrames t i items bufs).2.2.getD j []).getD e.ObjCBIndex d
            = transpose e.World := by
  have h0 : (0 : Int) ≤ e.NumFramesDirty := by
    rw [hd]; simp [gNumFrameResources]
  constructor
  · refine ⟨?_, ?_, ?_⟩
    · rw [runUpdateFrames_snd_fst]
      exact tickItem_iterate_mem _ _ _ he
    · rw [tickItem_iterate_dirty _ _ h0, hd]
      simp [gNumFrameResources]
    · intro j hj d
      obtain ⟨k, hk1, hk3, hkj⟩ := exists_ring_offset i j hj
      have hkd : (k : Int) ≤ e.NumFramesDirty := by
        rw [hd]
        simp only [gNumFrameResources] at hk3 ⊢
        omega
      have := runUpdateFrames_write gNumFrameResources i items bufs e k
        hb hlen hpw he hk1 hk3 hkd d
      rwa [hkj] at this
  · intro t h0t j hj d
    have ht3 : gNumFrameResources ≤ t := by
      by_contra hcon
      push_neg at hcon
      rw [tickItem_iterate_dirty _ _ h0, hd] at h0t
      simp only [gNumFrameResources] at h0t hcon
      omega
    obtain ⟨k, hk1, hk3, hkj⟩ := exists_ring_offset i j hj
    have hkd : (k : Int) ≤ e.NumFramesDirty := by
      rw [hd]
      simp only [gNumFrameResources] at hk3 ⊢
      omega
    have := runUpdateFrames_write t i items bufs e k
      hb hlen hpw he hk1 (by omega) hkd d
    rwa [hkj] at this

/-- Witness for `objectCB_convergence` on a concrete two-item scene with
three ring slots. -/
theorem objectCB_convergence_witness :
    itemA ∈ [itemA, itemB]
    ∧ itemA.NumFramesDirty = (gNumFrameResources : Int)
    ∧ (tickItem^[gNumFrameResources] itemA).NumFramesDirty = 0
    ∧ ∀ d, ((runUpdateFrames gNumFrameResources 0 [itemA, itemB]
        exampleBufs).2.2.getD 0 []).getD itemA.ObjCBIndex d = transpose itemA.World :=
  ⟨List.mem_cons_self _ _, by decide,
   (objectCB_convergence 0 [itemA, itemB] exampleBufs itemA rfl (by decide)
     (by decide) (List.mem_cons_self _ _) (by decide)).1.2.1,
   fun d => (objectCB_convergence 0 [itemA, itemB] exampleBufs itemA rfl (by decide)
     (by decide) (List.mem_cons_self _ _) (by decide)).1.2.2 0 (by decide) d⟩

/-- Witness for `descriptor_offsets_injective_and_disjoint` at concrete
inputs. -/
theorem descriptor_offsets_injective_and_disjoint_witness :
    (1 : Nat) < 32 ∧ (2 : Nat) < 32 ∧ (2 : Nat) < gNumFrameResources ∧
    (objectCbvHeapIndex 32 0 1 = objectCbvHeapIndex 32 0 1 → (0 : Nat) = 0 ∧ (1 : Nat) = 1) ∧
    objectCbvHeapIndex 32 2 2 ≠ passCbvHeapIndex 32 0 :=
  ⟨by decide, by decide, by decide,
   descriptor_offsets_injective_and_disjoint.1 32 0 1 0 1 (by decide) (by decide),
   descriptor_offsets_injective_and_disjoint.2 32 2 2 0 (by decide) (by decide)⟩

/-! ### Draw dispatch and scene construction -/

/-- **C7** Draw dispatch: one `DrawRenderItems` pass produces exactly one
draw call per render item, in registration order with no reordering,
batching, or culling; the n-th call binds the descriptor at
`ringIndex * objectCount + item.objectSlot` and draws with the n-th item's
index-count, start-index, and base-vertex. -/
theorem drawRenderItems_contract {α : Type} (f objCount : Nat)
    (items : List (RenderItem α)) :
    (drawRenderItems f objCount items).length = items.length
    ∧ ∀ n, n < items.length → ∀ (dc : DrawCall) (d : RenderItem α),
        (drawRenderItems f objCount items).getD n dc
          = { cbvIndex := f * objCount + (items.getD n d).ObjCBIndex,
              indexCount := (items.getD n d).IndexCount,
              startIndexLocation := (items.getD n d).StartIndexLocation,
              baseVertexLocation := (items.getD n d).BaseVertexLocation } := by
  constructor
  · induction items with
    | nil => rfl
    | cons ri rest ih => simp only [drawRenderItems, List.length_cons, ih]
  · induction items with
    | nil => intro n hn; simp at hn
    | cons ri rest ih =>
      intro n hn dc d
      cases n with
      | zero => rfl
      | succ n =>
        rw [drawRenderItems]
        show (drawRenderItems f objCount rest).getD n dc = _
        exact ih n (by simpa using hn) dc d

/-- Witness for `drawRenderItems_contract` at a concrete item list. -/
theorem drawRenderItems_contract_witness :
    (1 : Nat) < ([itemA, itemB] : List (RenderItem Int)).length
    ∧ (drawRenderItems 2 2 [itemA, itemB]).getD 1 ⟨0, 0, 0, 0⟩
        = { cbvIndex := 2 * 2 + (([itemA, itemB].getD 1 itemA).ObjCBIndex),
            indexCount := ([itemA, itemB].getD 1 itemA).IndexCount,
            startIndexLocation := ([itemA, itemB].getD 1 itemA).StartIndexLocation,
            baseVertexLocation := ([itemA, itemB].getD 1 itemA).BaseVertexLocation } :=
  ⟨by decide,
   (drawRenderItems_contract 2 2 [itemA, itemB]).2 1 (by decide) ⟨0, 0, 0, 0⟩ itemA⟩

/-- **C9** Every render item created by `BuildRenderItems` has dirty-count
equal to N (= `gNumFrameResources` = 3) immediately after its transform is
set at creation (the program contains no later transform update). -/
theorem renderItems_dirty_at_creation {α : Type} (geo : ShapeGeometry)
    (worlds : Nat → M4 α) :
    ∀ e ∈ buildRenderItems geo worlds,
      e.NumFramesDirty = (gNumFrameResources : Int) := by
  intro e he
  simp only [buildRenderItems, List.mem_cons, List.not_mem_nil, or_false] at he
  rcases he with rfl|rfl|rfl|rfl|rfl|rfl|rfl|rfl|rfl|rfl|rfl|rfl|rfl|rfl|rfl|rfl|
    rfl|rfl|rfl|rfl|rfl|rfl|rfl|rfl|rfl|rfl|rfl|rfl|rfl|rfl|rfl|rfl <;> rfl

/-- Witness for `renderItems_dirty_at_creation` on a concrete scene. -/
theorem renderItems_dirty_at_creation_witness :
    mkRenderItem (exampleWorlds 0) 0 exampleGeo.box
        ∈ buildRenderItems exampleGeo exampleWorlds
    ∧ (mkRenderItem (exampleWorlds 0) 0 exampleGeo.box).NumFramesDirty
        = (gNumFrameResources : Int) :=
  ⟨List.mem_cons_self _ _,
   renderItems_dirty_at_creation exampleGeo exampleWorlds _ (List.mem_cons_self _ _)⟩

/-- **C10** Scene construction assigns the 32 render items the distinct,
consecutive object slots 0..31 and registers every item in the opaque
list; consequently every object descriptor index
`frameIndex * objectCount + objectSlot` and every pass descriptor index
`objectCount * N + frameIndex` computed while drawing is strictly below
the heap's allocated descriptor count `(objectCount + 1) * N`. -/
theorem descriptor_binding_in_bounds {α : Type} (geo : ShapeGeometry)
    (worlds : Nat → M4 α) :
    ((buildRenderItems geo worlds).map (fun r => r.ObjCBIndex) = List.range 32)
    ∧ opaqueRitems geo worlds = buildRenderItems geo worlds
    ∧ ∀ fi < gNumFrameResources, ∀ ri ∈ opaqueRitems geo worlds,
        objectCbvHeapIndex (opaqueRitems geo worlds).length fi ri.ObjCBIndex
            < numDescriptors (opaqueRitems geo worlds).length
        ∧ passCbvHeapIndex (opaqueRitems geo worlds).length fi
            < numDescriptors (opaqueRitems geo worlds).length := by
  have hmap : (buildRenderItems geo worlds).map (fun r => r.ObjCBIndex)
      = List.range 32 := by rfl
  refine ⟨hmap, rfl, ?_⟩
  intro fi hfi ri hri
  have hlen32 : (opaqueRitems geo worlds).length = 32 := rfl
  have hidx : ri.ObjCBIndex < 32 := by
    have hm : ri.ObjCBIndex ∈ (buildRenderItems geo worlds).map (fun r => r.ObjCBIndex) :=
      List.mem_map_of_mem _ hri
    rw [hmap] at hm
    exact List.mem_range.mp hm
  simp only [gNumFrameResources] at hfi
  constructor
  · rw [hlen32]
    unfold objectCbvHeapIndex numDescriptors gNumFrameResources
    have hmul : fi * 32 ≤ 2 * 32 := Nat.mul_le_mul_right _ (by omega)
    omega
  · rw [hlen32]
    unfold passCbvHeapIndex passCbvOffset numDescriptors gNumFrameResources
    omega

/-- Witness for `descriptor_binding_in_bounds` at a concrete scene, frame
index, and render item. -/
theorem descriptor_binding_in_bounds_witness :
    (2 : Nat) < gNumFrameResources
    ∧ mkRenderItem (exampleWorlds 0) 0 exampleGeo.box
        ∈ opaqueRitems exampleGeo exampleWorlds
    ∧ objectCbvHeapIndex (opaqueRitems exampleGeo exampleWorlds).length 2
        (mkRenderItem (exampleWorlds 0) 0 exampleGeo.box).ObjCBIndex
        < numDescriptors (opaqueRitems exampleGeo exampleWorlds).length
    ∧ passCbvHeapIndex (opaqueRitems exampleGeo exampleWorlds).length 2
        < numDescriptors (opaqueRitems exampleGeo exampleWorlds).length :=
  ⟨by decide, List.mem_cons_self _ _,
   ((descriptor_binding_in_bounds exampleGeo exampleWorlds).2.2 2 (by decide) _
     (List.mem_cons_self _ _)).1,
   ((descriptor_binding_in_bounds exampleGeo exampleWorlds).2.2 2 (by decide) _
     (List.mem_cons_self _ _)).2⟩

end ShapesApp
